import Mathlib

/-!
Verification development for the PO-vs-Invoice comparator (`src/app.py`).

The Python source is shallowly embedded below:

* `difflib.SequenceMatcher(None, a, b).ratio()` is embedded as `ratio`
  (the `b2j` index table with the autojunk purge, the `find_longest_match`
  dynamic program together with its two non-junk extension loops, and the
  recursive matching-blocks sum).  Since the source always constructs the
  matcher with `isjunk=None`, the junk set `bjunk` is empty and the two
  junk-extension loops of `find_longest_match` can never fire, so they are
  omitted.  Character case-folding and whitespace stripping are modelled on
  the ASCII range (`Char.toLower`, the six ASCII whitespace characters).
* Dynamic dictionary values for the header fields and the line-item fields
  are modelled by their Python string forms (`str(...)`); a missing key is
  `Option.none` and `dict.get(k, "")` becomes `Option.getD "" `.
* `compare_structures` is embedded with the same loop structure: a fold over
  the PO items threading the `inv_used` set (a set of `Option ℕ` because the
  Python code can insert `None` into `inv_used`), then the unmatched-invoice
  rows.  `round(x, 2)` is modelled as exact half-even rounding of the
  rational value at two decimal places.
* `call_gemini_for_structure` is embedded with the network call and
  `json.loads` supplied as oracle parameters (they are I/O); the list in the
  result records every request issued to the model, so that the
  "no network call" property is statable.
-/

/-- ASCII whitespace recognised by Python's `str.strip()`. -/
def pyIsSpace (c : Char) : Bool :=
  c = ' ' || c = '\t' || c = '\n' || c = '\r' || c = '\x0b' || c = '\x0c'

/-- Python `str.strip()` on a character list: drop whitespace at both ends. -/
def pyStrip (l : List Char) : List Char :=
  ((l.dropWhile pyIsSpace).reverse.dropWhile pyIsSpace).reverse

/-- Python `str.lower()` (ASCII case folding). -/
def pyLower (l : List Char) : List Char :=
  l.map Char.toLower

/-- Python `str.strip()` on strings. -/
def pyStripS (s : String) : String :=
  String.mk (pyStrip s.data)

/-- The `b2j` table of `difflib.SequenceMatcher.__chain_b`: the ascending list
of positions of `c` in `b`, with the autojunk purge of popular elements when
`b` has at least 200 elements.  `isjunk` is `None` in the source, so `bjunk`
is empty. -/
def b2j (b : List Char) (c : Char) : List ℕ :=
  let idxs := (b.enum.filter (fun p => decide (p.2 = c))).map Prod.fst
  if b.length ≥ 200 ∧ idxs.length > b.length / 100 + 1 then [] else idxs

/-- One inner-loop step of `find_longest_match`: state is
`(newj2len, besti, bestj, bestsize)`; `j2lenOld` is the previous row.
Python reads `j2len.get(j-1, 0)` (so `j = 0` reads the absent key `-1`). -/
def flmRowStep (j2lenOld : ℕ → ℕ) (i : ℕ) (st : (ℕ → ℕ) × ℕ × ℕ × ℕ) (j : ℕ) :
    (ℕ → ℕ) × ℕ × ℕ × ℕ :=
  let k := if j = 0 then 1 else j2lenOld (j - 1) + 1
  let newj2len := fun j' => if j' = j then k else st.1 j'
  if k > st.2.2.2 then (newj2len, i + 1 - k, j + 1 - k, k) else (newj2len, st.2)

/-- One outer-loop step (one value of `i`) of the `find_longest_match` DP.
The `continue`/`break` on the ascending position list is a range filter. -/
def flmOuterStep (a b : List Char) (blo bhi : ℕ) (st : (ℕ → ℕ) × ℕ × ℕ × ℕ)
    (i : ℕ) : (ℕ → ℕ) × ℕ × ℕ × ℕ :=
  let js := (b2j b (a.getD i ' ')).filter (fun j => decide (blo ≤ j) && decide (j < bhi))
  js.foldl (flmRowStep st.1 i) (fun _ => 0, st.2)

/-- The dynamic program of `find_longest_match` before the extension loops. -/
def flmDP (a b : List Char) (alo ahi blo bhi : ℕ) : ℕ × ℕ × ℕ :=
  ((List.range' alo (ahi - alo)).foldl (flmOuterStep a b blo bhi)
    (fun _ => 0, alo, blo, 0)).2

/-- First extension loop of `find_longest_match`: grow the block downwards
over equal (non-junk; `bjunk` is empty) characters.  The fuel bounds the
iteration count; `besti` decreases each step so `besti` steps suffice. -/
def extendLo (a b : List Char) (alo blo : ℕ) : ℕ → ℕ × ℕ × ℕ → ℕ × ℕ × ℕ
  | 0, st => st
  | fuel + 1, st =>
    if alo < st.1 ∧ blo < st.2.1 ∧ (a.get? (st.1 - 1)).isSome ∧
        a.get? (st.1 - 1) = b.get? (st.2.1 - 1) then
      extendLo a b alo blo fuel (st.1 - 1, st.2.1 - 1, st.2.2 + 1)
    else st

/-- Second extension loop of `find_longest_match`: grow the block upwards. -/
def extendHi (a b : List Char) (ahi bhi : ℕ) : ℕ → ℕ × ℕ × ℕ → ℕ × ℕ × ℕ
  | 0, st => st
  | fuel + 1, st =>
    if st.1 + st.2.2 < ahi ∧ st.2.1 + st.2.2 < bhi ∧
        (a.get? (st.1 + st.2.2)).isSome ∧
        a.get? (st.1 + st.2.2) = b.get? (st.2.1 + st.2.2) then
      extendHi a b ahi bhi fuel (st.1, st.2.1, st.2.2 + 1)
    else st

/-- Embedding of `SequenceMatcher.find_longest_match` restricted to `[alo, ahi) × [blo, bhi)`:
the DP result followed by the two (non-junk) extension loops. -/
def find_longest_match (a b : List Char) (alo ahi blo bhi : ℕ) : ℕ × ℕ × ℕ :=
  extendHi a b ahi bhi ahi
    (extendLo a b alo blo (flmDP a b alo ahi blo bhi).1 (flmDP a b alo ahi blo bhi))

/-- Total size of the matching blocks of `get_matching_blocks` on the given
rectangle (the queue recursion of the source; merging adjacent blocks does not
change the total size).  Fuel-based: each recursive call strictly shrinks the
rectangle, so `a.length + b.length + 1` fuel is enough at the full rectangle. -/
def matchingSum (a b : List Char) : ℕ → ℕ × ℕ × ℕ × ℕ → ℕ
  | 0, _ => 0
  | fuel + 1, (alo, ahi, blo, bhi) =>
    let m := find_longest_match a b alo ahi blo bhi
    if m.2.2 = 0 then 0
    else
      m.2.2 +
        (if alo < m.1 ∧ blo < m.2.1 then matchingSum a b fuel (alo, m.1, blo, m.2.1) else 0) +
        (if m.1 + m.2.2 < ahi ∧ m.2.1 + m.2.2 < bhi then
          matchingSum a b fuel (m.1 + m.2.2, ahi, m.2.1 + m.2.2, bhi) else 0)

/-- Embedding of `SequenceMatcher.ratio()`: `2*M / T` where `M` is the total matched size
and `T` the total length; `1.0` when both sequences are empty.  The exact
rational is built with `mkRat` (the same value as the division). -/
def ratio (a b : List Char) : ℚ :=
  if a.length + b.length = 0 then 1
  else mkRat (2 * (matchingSum a b (a.length + b.length + 1) (0, a.length, 0, b.length) : ℕ))
    (a.length + b.length)

/-- Embedding of `similar(a, b)` from the source: the ratio over case-folded, trimmed
descriptions (`a.lower().strip()`). -/
def similar (a b : String) : ℚ :=
  ratio (pyStrip (pyLower a.data)) (pyStrip (pyLower b.data))

/-- Half-even (banker's) rounding of `100 q` to an integer, as Python's
`round(q, 2)` scaled by `100`: `f` is the floor of `100 q` and `r` the
numerator of its fractional part over the denominator `d`. -/
def roundHalfEven100 (q : ℚ) : ℤ :=
  let n := 100 * q.num
  let d := (q.den : ℤ)
  let f := n.fdiv d
  let r := n - f * d
  if 2 * r < d then f
  else if d < 2 * r then f + 1
  else if f % 2 = 0 then f else f + 1

/-- Python `round(x, 2)`, modelled as exact half-even rounding of the rational
value at two decimal places (floats introduce no further deviation on the
scores exercised by the claims). -/
def pyRound2 (q : ℚ) : ℚ :=
  mkRat (roundHalfEven100 q) 100

/-- A line item of a structured record.  Field values are their Python string
forms; `none` models a missing key (`dict.get(k, "")` is `Option.getD ""`). -/
structure LineItem where
  description : Option String
  qty : Option String
  unit_price : Option String
  total : Option String
deriving DecidableEq

/-- A structured record as produced by the Structure Extractor.  A falsy
(`None` / `{}`) record is the record with every field missing. -/
structure StructuredDoc where
  number : Option String
  vendor : Option String
  date : Option String
  grand_total : Option String
  items : List LineItem
deriving DecidableEq

/-- One entry of `header_checks`: `(field_label, po_val, inv_val, status)`. -/
structure HeaderCheck where
  field : String
  po_value : String
  inv_value : String
  status : String
deriving DecidableEq

/-- One item row of the comparison report (the dict appended to `rows`). -/
structure Row where
  field : String
  po_value : String
  inv_value : String
  po_qty : String
  inv_qty : String
  po_price : String
  inv_price : String
  po_total : String
  inv_total : String
  status : String
  match_score : ℚ
deriving DecidableEq

/-- The header status expression of the source:
`"Match" if str(po_val).strip() and str(inv_val).strip() and
str(po_val).strip() == str(inv_val).strip() else "Mismatch"`. -/
def headerStatus (po_val inv_val : String) : String :=
  if pyStripS po_val ≠ "" ∧ pyStripS inv_val ≠ "" ∧ pyStripS po_val = pyStripS inv_val
  then "Match" else "Mismatch"

/-- The header-comparison loop over the four fixed field pairs. -/
def header_checks (po inv : StructuredDoc) : List HeaderCheck :=
  [⟨"Document Number", po.number.getD "", inv.number.getD "",
      headerStatus (po.number.getD "") (inv.number.getD "")⟩,
   ⟨"Vendor", po.vendor.getD "", inv.vendor.getD "",
      headerStatus (po.vendor.getD "") (inv.vendor.getD "")⟩,
   ⟨"Date", po.date.getD "", inv.date.getD "",
      headerStatus (po.date.getD "") (inv.date.getD "")⟩,
   ⟨"Grand Total", po.grand_total.getD "", inv.grand_total.getD "",
      headerStatus (po.grand_total.getD "") (inv.grand_total.getD "")⟩]

/-- Embedding of `it.get("description", "")`. -/
def getDesc (it : LineItem) : String :=
  it.description.getD ""

/-- One step of the inner candidate scan of `compare_structures`:
skip claimed indices, update `(best_score, best_match, best_idx)` on a
strictly larger score. -/
def scanStep (desc : String) (inv_used : Finset (Option ℕ))
    (st : ℚ × Option LineItem × Option ℕ) (p : ℕ × LineItem) :
    ℚ × Option LineItem × Option ℕ :=
  if (some p.1) ∈ inv_used then st
  else if similar desc (getDesc p.2) > st.1 then
    (similar desc (getDesc p.2), some p.2, some p.1)
  else st

/-- The inner candidate scan: `best_score = 0.0`, `best_match = None`,
`best_idx = None`, then the `enumerate(inv_items)` loop. -/
def bestOf (desc : String) (inv_used : Finset (Option ℕ)) (inv_items : List LineItem) :
    ℚ × Option LineItem × Option ℕ :=
  inv_items.enum.foldl (scanStep desc inv_used) (0, none, none)

/-- The per-row status of the item comparison: `"Mismatch"` as soon as one of
the three string-form comparisons differs. -/
def item_status (po_qty inv_qty po_price inv_price po_total inv_total : String) : String :=
  if po_qty ≠ inv_qty ∨ po_price ≠ inv_price ∨ po_total ≠ inv_total
  then "Mismatch" else "Match"

/-- The PO-driven row appended for one PO item (`inv_it` is the claimed
invoice item, if any). -/
def poRow (po_it : LineItem) (inv_it : Option LineItem) (best_score : ℚ) : Row :=
  ⟨"Item", getDesc po_it, (inv_it.map getDesc).getD "",
    po_it.qty.getD "", (inv_it.map (fun x => x.qty.getD "")).getD "",
    po_it.unit_price.getD "", (inv_it.map (fun x => x.unit_price.getD "")).getD "",
    po_it.total.getD "", (inv_it.map (fun x => x.total.getD "")).getD "",
    item_status (po_it.qty.getD "") ((inv_it.map (fun x => x.qty.getD "")).getD "")
      (po_it.unit_price.getD "") ((inv_it.map (fun x => x.unit_price.getD "")).getD "")
      (po_it.total.getD "") ((inv_it.map (fun x => x.total.getD "")).getD ""),
    pyRound2 best_score⟩

/-- One iteration of the PO-item loop of `compare_structures`: run the scan,
accept when `best_score >= item_match_threshold` (inserting `best_idx`, which
Python allows to be `None`, into `inv_used`), and append the row. -/
def poStep (inv_items : List LineItem) (threshold : ℚ)
    (st : Finset (Option ℕ) × List Row) (po_it : LineItem) :
    Finset (Option ℕ) × List Row :=
  let best := bestOf (getDesc po_it) st.1 inv_items
  if best.1 ≥ threshold then
    (insert best.2.2 st.1, st.2 ++ [poRow po_it best.2.1 best.1])
  else (st.1, st.2 ++ [poRow po_it none best.1])

/-- The row appended for an invoice item never claimed. -/
def unmatchedRowOf (it : LineItem) : Row :=
  ⟨"Item (Unmatched Invoice)", "", getDesc it,
    "", it.qty.getD "", "", it.unit_price.getD "", "", it.total.getD "",
    "Mismatch", 0⟩

/-- Embedding of `compare_structures(po_struct, inv_struct, item_match_threshold)`:
header checks, PO-driven rows in PO order, then the unmatched invoice rows
in original order.  The Python default threshold is `0.7`. -/
def compare_structures (po_struct inv_struct : StructuredDoc)
    (item_match_threshold : ℚ) : List HeaderCheck × List Row :=
  let hc := header_checks po_struct inv_struct
  let r := po_struct.items.foldl (poStep inv_struct.items item_match_threshold) (∅, [])
  (hc, r.2 ++ (inv_struct.items.enum.filter (fun p => decide ((some p.1) ∉ r.1))).map
    (fun p => unmatchedRowOf p.2))

/-- The matching decisions of the PO-item loop: the same fold as
`compare_structures`, recording for each PO item the pair
`(best_score, claimed index)` instead of the rendered row. -/
def claimedStep (inv_items : List LineItem) (threshold : ℚ)
    (st : Finset (Option ℕ) × List (ℚ × Option ℕ)) (po_it : LineItem) :
    Finset (Option ℕ) × List (ℚ × Option ℕ) :=
  let best := bestOf (getDesc po_it) st.1 inv_items
  if best.1 ≥ threshold then
    (insert best.2.2 st.1, st.2 ++ [(best.1, best.2.2)])
  else (st.1, st.2 ++ [(best.1, none)])

/-- The per-PO-item trace of `(best_score, claimed invoice index)`. -/
def claimedSeq (po_items inv_items : List LineItem) (threshold : ℚ) :
    List (ℚ × Option ℕ) :=
  (po_items.foldl (claimedStep inv_items threshold) (∅, [])).2

/-- The `inv_used` set after the whole PO-item loop. -/
def usedAfter (po_items inv_items : List LineItem) (threshold : ℚ) :
    Finset (Option ℕ) :=
  (po_items.foldl (claimedStep inv_items threshold) (∅, [])).1

/-- The embedding `ℕ ↪ Option ℕ` relating the spec-side claimed set to the
source-side `inv_used` set. -/
def embSome : ℕ ↪ Option ℕ :=
  ⟨some, Option.some_injective ℕ⟩

/-- Spec-side selection step, written from the spec's words (§4.3): for one PO
item, score every not-yet-claimed invoice item, select the unclaimed item
with the highest score breaking ties by first-encountered index, accept and
claim it iff the best score reaches the threshold. -/
def specGreedyStep (inv_items : List LineItem) (threshold : ℚ)
    (st : Finset ℕ × List (ℚ × Option ℕ)) (po_it : LineItem) :
    Finset ℕ × List (ℚ × Option ℕ) :=
  let unclaimed := inv_items.enum.filter (fun p => decide (p.1 ∉ st.1))
  let best_score := (unclaimed.map (fun p => similar (getDesc po_it) (getDesc p.2))).foldl max 0
  match unclaimed.find? (fun p => decide (similar (getDesc po_it) (getDesc p.2) = best_score)) with
  | some q =>
    if best_score ≥ threshold then (insert q.1 st.1, st.2 ++ [(best_score, some q.1)])
    else (st.1, st.2 ++ [(best_score, none)])
  | none => (st.1, st.2 ++ [(best_score, none)])

/-- Spec-side greedy item matching over the PO items in their original order. -/
def specGreedy (po_items inv_items : List LineItem) (threshold : ℚ) :
    List (ℚ × Option ℕ) :=
  (po_items.foldl (specGreedyStep inv_items threshold) (∅, [])).2

/-- Bounds predicate for a `find_longest_match` result on a rectangle. -/
def FlmBounds (alo ahi blo bhi : ℕ) (r : ℕ × ℕ × ℕ) : Prop :=
  alo ≤ r.1 ∧ blo ≤ r.2.1 ∧ r.1 + r.2.2 ≤ ahi ∧ r.2.1 + r.2.2 ≤ bhi

/-- Invariant for the `j2len` row of the `find_longest_match` DP: every run
length is at most `d` and a nonzero entry at `j` is a run inside `[blo, j]`. -/
def J2Bound (blo : ℕ) (d : ℕ) (f : ℕ → ℕ) : Prop :=
  ∀ j, f j ≤ d ∧ (f j ≠ 0 → blo ≤ j ∧ f j ≤ j + 1 - blo)

/-- Python truthiness of the `GEMINI_KEY` value (`None` and `""` are falsy). -/
def truthyStr : Option String → Bool
  | none => false
  | some s => decide (s ≠ "")

/-- The prompt constructed by `call_gemini_for_structure` (the f-string with
the document type and the first 15000 characters of the text). -/
def build_prompt (doc_type text : String) : String :=
  "\nYou are a reliable document parser. Given the following " ++ doc_type ++
  " text (may be multi-page, may contain tables),\n" ++
  "extract the following fields and return only valid JSON (no explanation):\n\n" ++
  "- document_type: \"Purchase Order\" or \"Invoice\"\n" ++
  "- number: document number (PO number or Invoice number)\n" ++
  "- vendor: vendor / supplier name\n" ++
  "- date: date if present (any common format)\n" ++
  "- grand_total: grand total amount if present (numeric)\n" ++
  "- items: list of item objects, each with: description, qty (number), unit_price (number), total (number)\n\n" ++
  "Return result exactly as JSON. Example:\n" ++
  "\x7b \"document_type\":\"Purchase Order\", \"number\":\"PO-12345\", \"vendor\":\"ACME Ltd\",\n" ++
  "  \"date\":\"2024-03-01\", \"grand_total\":\"12345.67\",\n" ++
  "  \"items\":[\x7b\"description\":\"Bolt 10mm\",\"qty\":10,\"unit_price\":5.0,\"total\":50.0\x7d, ...] \x7d\n  \n" ++
  "Here is the " ++ doc_type ++
  " text to analyze:\n\n\"\"\"" ++ text.take 15000 ++ "\"\"\"\n    "

/-- The `re.search(r"(\x7b[\s\S]*\x7d)", ...)` fallback: the slice from the
first opening brace to the last closing brace, when the latter comes after
the former; otherwise the raw text is kept. -/
def firstBraceSlice (raw : String) : String :=
  match raw.data.findIdx? (fun c => decide (c = '\x7b')),
      raw.data.reverse.findIdx? (fun c => decide (c = '\x7d')) with
  | some i, some rj =>
    let j := raw.data.length - 1 - rj
    if i < j then String.mk ((raw.data.drop i).take (j + 1 - i)) else raw
  | _, _ => raw

/-- Embedding of `call_gemini_for_structure(text, doc_type)`.  The ambient `GEMINI_KEY`, the
`model.generate_content` network call and `json.loads` are parameters (the
last two are I/O oracles: `Except.error` models a raised exception, a `none`
parse models `json.JSONDecodeError`).  The final list records every request
issued to the model service. -/
def call_gemini_for_structure (gemini_key : Option String)
    (generate_content : String → Except String String)
    (json_loads : String → Option StructuredDoc)
    (text doc_type : String) :
    (Option StructuredDoc × Option String) × List String :=
  if truthyStr gemini_key = false then ((none, some "No API key configured."), [])
  else
    let prompt := build_prompt doc_type text
    match generate_content prompt with
    | Except.error e => ((none, some ("Error calling Gemini: " ++ e)), [prompt])
    | Except.ok resp =>
      let raw := pyStripS resp
      let json_text :=
        if raw.startsWith "\x7b" ∧ raw.endsWith "\x7d" then raw else firstBraceSlice raw
      match json_loads json_text with
      | some parsed => ((some parsed, none), [prompt])
      | none => ((none, some ("AI returned invalid JSON. Raw response:\n" ++ raw)), [prompt])

/-- PO line item of the below-threshold counterexample record. -/
def poIt4 : LineItem := ⟨some "ab", some "1", none, none⟩

/-- Invoice line item of the below-threshold counterexample record
(`similar "ab" "ax" = 1/2`). -/
def invIt4 : LineItem := ⟨some "ax", some "1", none, none⟩

/-- PO record whose single item scores `1/2` against the invoice. -/
def po4 : StructuredDoc := ⟨none, none, none, none, [poIt4]⟩

/-- Invoice record for the below-threshold counterexample. -/
def inv4 : StructuredDoc := ⟨none, none, none, none, [invIt4]⟩

/-- PO record of the threshold-monotonicity counterexample:
`similar "abcxx" "abcde" = 3/5` and `similar "abcde" "abcde" = 1`. -/
def po6 : StructuredDoc :=
  ⟨none, none, none, none, [⟨some "abcxx", none, none, none⟩, ⟨some "abcde", none, none, none⟩]⟩

/-- Invoice record of the threshold-monotonicity counterexample. -/
def inv6 : StructuredDoc :=
  ⟨none, none, none, none, [⟨some "abcde", none, none, none⟩]⟩

/-- PO record of the permutation counterexample: `similar "ab" "axb" =
similar "ab" "ayb" = 4/5`, `similar "axb" "axb" = 1`, `similar "axb" "ayb" = 2/3`. -/
def po7 : StructuredDoc :=
  ⟨none, none, none, none, [⟨some "ab", none, none, none⟩, ⟨some "axb", none, none, none⟩]⟩

/-- First invoice item of the permutation counterexample. -/
def invX : LineItem := ⟨some "axb", none, none, none⟩

/-- Second invoice item of the permutation counterexample. -/
def invY : LineItem := ⟨some "ayb", none, none, none⟩

/-- PO line item of the matched-pair string-comparison witness. -/
def poIt3 : LineItem := ⟨some "bolt", some "5.00", some "2", some "10"⟩

/-- Invoice line item of the matched-pair string-comparison witness. -/
def invIt3 : LineItem := ⟨some "bolt", some "5.0", some "2", some "10"⟩

/-- Constructor form of `FlmBounds` on an explicit triple. -/
theorem flmBounds_mk {alo ahi blo bhi x y z : ℕ} (h1 : alo ≤ x) (h2 : blo ≤ y)
    (h3 : x + z ≤ ahi) (h4 : y + z ≤ bhi) : FlmBounds alo ahi blo bhi (x, y, z) :=
  ⟨h1, h2, h3, h4⟩

/-- Fold invariant principle used for the imperative loops of the source. -/
theorem foldlInvariant {α β : Type _} (P : β → Prop) (f : β → α → β) :
    ∀ (l : List α) (b : β), (∀ b' a, a ∈ l → P b' → P (f b' a)) → P b → P (l.foldl f b) := by
  intro l
  induction l with
  | nil => intro b _ hb; exact hb
  | cons x xs ih =>
    intro b hstep hb
    exact ih (f b x) (fun b' a ha => hstep b' a (List.mem_cons_of_mem _ ha))
      (hstep b x (List.mem_cons_self _ _) hb)

/-- One inner DP step keeps the `j2len` bounds and the best-block bounds. -/
theorem flmRowStep_inv {alo ahi blo bhi i j : ℕ} {j2lenOld : ℕ → ℕ}
    {st : (ℕ → ℕ) × ℕ × ℕ × ℕ}
    (hj : blo ≤ j ∧ j < bhi) (hi : alo ≤ i ∧ i < ahi)
    (hold : J2Bound blo (i - alo) j2lenOld)
    (h1 : J2Bound blo (i + 1 - alo) st.1)
    (h2 : FlmBounds alo ahi blo bhi st.2) :
    J2Bound blo (i + 1 - alo) (flmRowStep j2lenOld i st j).1 ∧
      FlmBounds alo ahi blo bhi (flmRowStep j2lenOld i st j).2 := by
  have hk1 : (if j = 0 then 1 else j2lenOld (j - 1) + 1) ≤ i + 1 - alo := by
    split
    · omega
    · have := (hold (j - 1)).1
      omega
  have hk2 : (if j = 0 then 1 else j2lenOld (j - 1) + 1) ≤ j + 1 - blo := by
    split
    · omega
    · rcases Nat.eq_zero_or_pos (j2lenOld (j - 1)) with h0 | h0
      · omega
      · have := (hold (j - 1)).2 (by omega)
        omega
  have hnew : J2Bound blo (i + 1 - alo)
      (fun j' => if j' = j then (if j = 0 then 1 else j2lenOld (j - 1) + 1) else st.1 j') := by
    intro j'
    by_cases hj' : j' = j
    · subst hj'
      simp only [if_pos rfl]
      exact ⟨hk1, fun _ => ⟨by omega, hk2⟩⟩
    · simp only [if_neg hj']
      exact h1 j'
  simp only [flmRowStep]
  by_cases hgt : (if j = 0 then 1 else j2lenOld (j - 1) + 1) > st.2.2.2
  · rw [if_pos hgt]
    refine ⟨hnew, ?_, ?_, ?_, ?_⟩
    · show alo ≤ i + 1 - (if j = 0 then 1 else j2lenOld (j - 1) + 1)
      omega
    · show blo ≤ j + 1 - (if j = 0 then 1 else j2lenOld (j - 1) + 1)
      omega
    · show i + 1 - (if j = 0 then 1 else j2lenOld (j - 1) + 1) +
        (if j = 0 then 1 else j2lenOld (j - 1) + 1) ≤ ahi
      omega
    · show j + 1 - (if j = 0 then 1 else j2lenOld (j - 1) + 1) +
        (if j = 0 then 1 else j2lenOld (j - 1) + 1) ≤ bhi
      omega
  · rw [if_neg hgt]
    exact ⟨hnew, h2⟩

/-- One outer DP step (one row `i`) keeps the invariants. -/
theorem flmOuterStep_inv {a b : List Char} {alo ahi blo bhi i : ℕ}
    {st : (ℕ → ℕ) × ℕ × ℕ × ℕ}
    (hi : alo ≤ i ∧ i < ahi)
    (h1 : J2Bound blo (i - alo) st.1)
    (h2 : FlmBounds alo ahi blo bhi st.2) :
    J2Bound blo (i + 1 - alo) (flmOuterStep a b blo bhi st i).1 ∧
      FlmBounds alo ahi blo bhi (flmOuterStep a b blo bhi st i).2 := by
  have h := foldlInvariant
    (fun s : (ℕ → ℕ) × ℕ × ℕ × ℕ =>
      J2Bound blo (i + 1 - alo) s.1 ∧ FlmBounds alo ahi blo bhi s.2)
    (flmRowStep st.1 i)
    ((b2j b (a.getD i ' ')).filter (fun j => decide (blo ≤ j) && decide (j < bhi)))
    (fun _ => 0, st.2)
    (fun s j hjmem hs => by
      have hj : blo ≤ j ∧ j < bhi := by
        have := List.of_mem_filter hjmem
        simp only [Bool.and_eq_true, decide_eq_true_eq] at this
        exact this
      exact flmRowStep_inv hj hi h1 hs.1 hs.2)
    ⟨fun j => ⟨Nat.zero_le _, fun h => absurd rfl h⟩, h2⟩
  exact h

/-- The whole DP loop keeps the best-block bounds. -/
theorem flmDP_fold_inv {a b : List Char} {alo ahi blo bhi : ℕ} :
    ∀ (n i0 : ℕ) (st : (ℕ → ℕ) × ℕ × ℕ × ℕ),
      alo ≤ i0 → i0 + n ≤ ahi →
      J2Bound blo (i0 - alo) st.1 → FlmBounds alo ahi blo bhi st.2 →
      J2Bound blo (i0 + n - alo)
          (((List.range' i0 n).foldl (flmOuterStep a b blo bhi) st)).1 ∧
        FlmBounds alo ahi blo bhi
          (((List.range' i0 n).foldl (flmOuterStep a b blo bhi) st)).2 := by
  intro n
  induction n with
  | zero => intro i0 st _ _ hj hb; exact ⟨hj, hb⟩
  | succ n ih =>
    intro i0 st hlo hhi hj hb
    have hrange : List.range' i0 (n + 1) = i0 :: List.range' (i0 + 1) n := by
      simp [List.range'_succ]
    rw [hrange]
    simp only [List.foldl_cons]
    have hstep := flmOuterStep_inv (a := a) (b := b) ⟨hlo, by omega⟩ hj hb
    have h := ih (i0 + 1) (flmOuterStep a b blo bhi st i0) (by omega) (by omega)
      hstep.1 hstep.2
    have heq : i0 + 1 + n = i0 + (n + 1) := by omega
    rw [heq] at h
    exact h

/-- The DP part of `find_longest_match` returns a block inside the rectangle. -/
theorem flmDP_bounds {a b : List Char} {alo ahi blo bhi : ℕ}
    (h1 : alo ≤ ahi) (h2 : blo ≤ bhi) :
    FlmBounds alo ahi blo bhi (flmDP a b alo ahi blo bhi) := by
  have h := @flmDP_fold_inv a b alo ahi blo bhi (ahi - alo) alo (fun _ => 0, alo, blo, 0)
    (le_refl _) (by omega)
    (fun j => ⟨Nat.zero_le _, fun h => absurd rfl h⟩)
    (flmBounds_mk (le_refl _) (le_refl _) (by omega) (by omega))
  exact h.2

/-- The downward extension loop keeps the block inside the rectangle. -/
theorem extendLo_bounds {a b : List Char} {alo ahi blo bhi : ℕ} :
    ∀ (fuel : ℕ) (st : ℕ × ℕ × ℕ), FlmBounds alo ahi blo bhi st →
      FlmBounds alo ahi blo bhi (extendLo a b alo blo fuel st) := by
  intro fuel
  induction fuel with
  | zero => intro st h; exact h
  | succ fuel ih =>
    intro st h
    obtain ⟨bi, bj, bs⟩ := st
    have h1 : alo ≤ bi := h.1
    have h2 : blo ≤ bj := h.2.1
    have h3 : bi + bs ≤ ahi := h.2.2.1
    have h4 : bj + bs ≤ bhi := h.2.2.2
    simp only [extendLo]
    split
    · rename_i hc
      exact ih _ (flmBounds_mk (by omega) (by omega) (by omega) (by omega))
    · exact h

/-- The upward extension loop keeps the block inside the rectangle. -/
theorem extendHi_bounds {a b : List Char} {alo ahi blo bhi : ℕ} :
    ∀ (fuel : ℕ) (st : ℕ × ℕ × ℕ), FlmBounds alo ahi blo bhi st →
      FlmBounds alo ahi blo bhi (extendHi a b ahi bhi fuel st) := by
  intro fuel
  induction fuel with
  | zero => intro st h; exact h
  | succ fuel ih =>
    intro st h
    obtain ⟨bi, bj, bs⟩ := st
    have h1 : alo ≤ bi := h.1
    have h2 : blo ≤ bj := h.2.1
    have h3 : bi + bs ≤ ahi := h.2.2.1
    have h4 : bj + bs ≤ bhi := h.2.2.2
    simp only [extendHi]
    split
    · rename_i hc
      exact ih _ (flmBounds_mk (by omega) (by omega) (by omega) (by omega))
    · exact h

/-- The function `find_longest_match` returns a block inside the requested rectangle. -/
theorem find_longest_match_bounds {a b : List Char} {alo ahi blo bhi : ℕ}
    (h1 : alo ≤ ahi) (h2 : blo ≤ bhi) :
    FlmBounds alo ahi blo bhi (find_longest_match a b alo ahi blo bhi) := by
  exact extendHi_bounds _ _ (extendLo_bounds _ _ (flmDP_bounds h1 h2))

/-- The total matched size is at most the size of either side. -/
theorem matchingSum_le {a b : List Char} :
    ∀ (fuel alo ahi blo bhi : ℕ), alo ≤ ahi → blo ≤ bhi →
      matchingSum a b fuel (alo, ahi, blo, bhi) ≤ min (ahi - alo) (bhi - blo) := by
  intro fuel
  induction fuel with
  | zero => intro alo ahi blo bhi _ _; exact Nat.zero_le _
  | succ fuel ih =>
    intro alo ahi blo bhi h1 h2
    obtain ⟨hm1, hm2, hm3, hm4⟩ := find_longest_match_bounds (a := a) (b := b) h1 h2
    simp only [matchingSum]
    split
    · exact Nat.zero_le _
    · rename_i hk
      set m := find_longest_match a b alo ahi blo bhi with hm
      have hL : (if alo < m.1 ∧ blo < m.2.1 then
          matchingSum a b fuel (alo, m.1, blo, m.2.1) else 0) ≤
          min (m.1 - alo) (m.2.1 - blo) := by
        split
        · exact ih alo m.1 blo m.2.1 hm1 hm2
        · exact Nat.zero_le _
      have hR : (if m.1 + m.2.2 < ahi ∧ m.2.1 + m.2.2 < bhi then
          matchingSum a b fuel (m.1 + m.2.2, ahi, m.2.1 + m.2.2, bhi) else 0) ≤
          min (ahi - (m.1 + m.2.2)) (bhi - (m.2.1 + m.2.2)) := by
        split
        · rename_i hc
          exact ih _ _ _ _ (by omega) (by omega)
        · exact Nat.zero_le _
      have hL1 := le_trans hL (min_le_left _ _)
      have hL2 := le_trans hL (min_le_right _ _)
      have hR1 := le_trans hR (min_le_left _ _)
      have hR2 := le_trans hR (min_le_right _ _)
      refine le_min (by omega) (by omega)

/-- The similarity ratio is nonnegative. -/
theorem ratio_nonneg (a b : List Char) : 0 ≤ ratio a b := by
  unfold ratio
  split
  · norm_num
  · rw [Rat.mkRat_eq_div]
    positivity

/-- The similarity ratio is at most one. -/
theorem ratio_le_one (a b : List Char) : ratio a b ≤ 1 := by
  unfold ratio
  split
  · exact le_refl 1
  · rename_i h
    have hs := matchingSum_le (a := a) (b := b)
      (a.length + b.length + 1) 0 a.length 0 b.length (Nat.zero_le _) (Nat.zero_le _)
    have hmin1 := le_trans hs (min_le_left _ _)
    have hmin2 := le_trans hs (min_le_right _ _)
    rw [Rat.mkRat_eq_div]
    have hd : (0 : ℚ) < ((a.length + b.length : ℕ) : ℚ) := by
      have : 0 < a.length + b.length := Nat.pos_of_ne_zero h
      exact_mod_cast this
    rw [div_le_one hd]
    have hle : 2 * matchingSum a b (a.length + b.length + 1) (0, a.length, 0, b.length) ≤
        a.length + b.length := by omega
    exact_mod_cast hle

/-- The function `similar` produces a ratio in `[0, 1]`. -/
theorem similar_mem_unit (a b : String) : 0 ≤ similar a b ∧ similar a b ≤ 1 :=
  ⟨ratio_nonneg _ _, ratio_le_one _ _⟩

/-- One scan step never decreases the running best score. -/
theorem scanStep_fst_le (d : String) (u : Finset (Option ℕ))
    (st : ℚ × Option LineItem × Option ℕ) (p : ℕ × LineItem) :
    st.1 ≤ (scanStep d u st p).1 := by
  unfold scanStep
  split
  · exact le_refl _
  · split
    · rename_i h
      exact le_of_lt h
    · exact le_refl _

/-- The scan fold never decreases the running best score. -/
theorem scan_foldl_mono (d : String) (u : Finset (Option ℕ)) :
    ∀ (ps : List (ℕ × LineItem)) (st : ℚ × Option LineItem × Option ℕ),
      st.1 ≤ (ps.foldl (scanStep d u) st).1 := by
  intro ps
  induction ps with
  | nil => intro st; exact le_refl _
  | cons p ps ih =>
    intro st
    exact le_trans (scanStep_fst_le d u st p) (ih (scanStep d u st p))

/-- A scan step that leaves the best score unchanged changes nothing. -/
theorem scanStep_frozen (d : String) (u : Finset (Option ℕ))
    (st : ℚ × Option LineItem × Option ℕ) (p : ℕ × LineItem)
    (h : (scanStep d u st p).1 = st.1) : scanStep d u st p = st := by
  unfold scanStep at h ⊢
  split at h
  · rename_i hmem
    rw [if_pos hmem]
  · rename_i hmem
    split at h
    · rename_i hgt
      dsimp only at h
      rw [h] at hgt
      exact absurd hgt (lt_irrefl _)
    · rename_i hgt
      rw [if_neg hmem, if_neg hgt]

/-- A scan fold that leaves the best score unchanged changes nothing. -/
theorem scan_foldl_frozen (d : String) (u : Finset (Option ℕ)) :
    ∀ (ps : List (ℕ × LineItem)) (st : ℚ × Option LineItem × Option ℕ),
      (ps.foldl (scanStep d u) st).1 = st.1 → ps.foldl (scanStep d u) st = st := by
  intro ps
  induction ps with
  | nil => intro st _; rfl
  | cons p ps ih =>
    intro st h
    simp only [List.foldl_cons] at h ⊢
    have h1 : (scanStep d u st p).1 = st.1 :=
      le_antisymm (le_of_le_of_eq (scan_foldl_mono d u ps (scanStep d u st p)) h)
        (scanStep_fst_le d u st p)
    rw [scanStep_frozen d u st p h1] at h ⊢
    exact ih st h

/-- The running best score of the scan fold is the maximum of the scores of
the not-yet-claimed candidates and the initial value. -/
theorem scan_foldl_fst_eq (d : String) (u : Finset (Option ℕ)) :
    ∀ (ps : List (ℕ × LineItem)) (st : ℚ × Option LineItem × Option ℕ),
      (ps.foldl (scanStep d u) st).1 =
        ((ps.filter (fun p => decide ((some p.1) ∉ u))).map
          (fun p => similar d (getDesc p.2))).foldl max st.1 := by
  intro ps
  induction ps with
  | nil => intro st; rfl
  | cons p ps ih =>
    intro st
    by_cases hmem : (some p.1) ∈ u
    · have hstep : scanStep d u st p = st := by
        unfold scanStep
        rw [if_pos hmem]
      have hfil : decide ((some p.1) ∉ u) = false := by simp [hmem]
      simp only [List.foldl_cons, hstep, List.filter_cons, hfil]
      exact ih st
    · have hfil : decide ((some p.1) ∉ u) = true := by simp [hmem]
      have hfst : (scanStep d u st p).1 = max st.1 (similar d (getDesc p.2)) := by
        unfold scanStep
        rw [if_neg hmem]
        split
        · rename_i hgt
          exact (max_eq_right (le_of_lt hgt)).symm
        · rename_i hgt
          exact (max_eq_left (not_lt.mp hgt)).symm
      simp only [List.foldl_cons, List.filter_cons, hfil, if_pos, List.map_cons]
      rw [ih (scanStep d u st p), hfst]

/-- When the scan fold strictly improves on the initial score, the final
`(best_match, best_idx)` pair is the first not-yet-claimed candidate whose
score equals the final best score. -/
theorem scan_foldl_find (d : String) (u : Finset (Option ℕ)) :
    ∀ (ps : List (ℕ × LineItem)) (st : ℚ × Option LineItem × Option ℕ),
      st.1 < (ps.foldl (scanStep d u) st).1 →
      ∃ q, (ps.filter (fun p => decide ((some p.1) ∉ u))).find?
            (fun p => decide (similar d (getDesc p.2) = (ps.foldl (scanStep d u) st).1)) =
          some q ∧
        (ps.foldl (scanStep d u) st).2.1 = some q.2 ∧
        (ps.foldl (scanStep d u) st).2.2 = some q.1 := by
  intro ps
  induction ps with
  | nil => intro st h; exact absurd h (lt_irrefl _)
  | cons p ps ih =>
    intro st h
    simp only [List.foldl_cons] at h ⊢
    by_cases hmem : (some p.1) ∈ u
    · have hstep : scanStep d u st p = st := by
        unfold scanStep
        rw [if_pos hmem]
      have hfil : decide ((some p.1) ∉ u) = false := by simp [hmem]
      simp only [hstep] at h ⊢
      simp only [List.filter_cons, hfil]
      exact ih st h
    · have hfil : decide ((some p.1) ∉ u) = true := by simp [hmem]
      simp only [List.filter_cons, hfil, if_pos]
      by_cases hgt : similar d (getDesc p.2) > st.1
      · have hstep : scanStep d u st p = (similar d (getDesc p.2), some p.2, some p.1) := by
          unfold scanStep
          rw [if_neg hmem, if_pos hgt]
        simp only [hstep] at h ⊢
        rcases eq_or_lt_of_le
            (scan_foldl_mono d u ps (similar d (getDesc p.2), some p.2, some p.1)) with
          heq | hlt
        · have hfroz := scan_foldl_frozen d u ps
            (similar d (getDesc p.2), some p.2, some p.1) heq.symm
          rw [hfroz]
          refine ⟨p, ?_, rfl, rfl⟩
          apply List.find?_cons_of_pos
          simp
        · obtain ⟨q, hq1, hq2, hq3⟩ := ih (similar d (getDesc p.2), some p.2, some p.1) hlt
          refine ⟨q, ?_, hq2, hq3⟩
          rw [List.find?_cons_of_neg]
          · exact hq1
          · simp only [decide_eq_true_eq]
            exact ne_of_lt hlt
      · have hstep : scanStep d u st p = st := by
          unfold scanStep
          rw [if_neg hmem, if_neg hgt]
        simp only [hstep] at h ⊢
        obtain ⟨q, hq1, hq2, hq3⟩ := ih st h
        refine ⟨q, ?_, hq2, hq3⟩
        rw [List.find?_cons_of_neg]
        · exact hq1
        · simp only [decide_eq_true_eq]
          have : similar d (getDesc p.2) ≤ st.1 := not_lt.mp hgt
          exact ne_of_lt (lt_of_le_of_lt this h)

/-- A claimed index produced by the scan fold is never an already-used index. -/
theorem scan_foldl_notmem (d : String) (u : Finset (Option ℕ)) :
    ∀ (ps : List (ℕ × LineItem)) (st : ℚ × Option LineItem × Option ℕ) (j : ℕ),
      (ps.foldl (scanStep d u) st).2.2 = some j →
      st.2.2 = some j ∨ (some j) ∉ u := by
  intro ps
  induction ps with
  | nil => intro st j h; exact Or.inl h
  | cons p ps ih =>
    intro st j h
    simp only [List.foldl_cons] at h
    rcases ih (scanStep d u st p) j h with h' | h'
    · unfold scanStep at h'
      split at h'
      · exact Or.inl h'
      · rename_i hmem
        split at h'
        · dsimp only at h'
          rw [Option.some_inj] at h'
          subst h'
          exact Or.inr hmem
        · exact Or.inl h'
    · exact Or.inr h'

/-- The scan returns a claimed index exactly when the best score is positive. -/
theorem bestOf_idx_isSome (d : String) (u : Finset (Option ℕ)) (l : List LineItem) :
    ((bestOf d u l).2.2).isSome = true ↔ 0 < (bestOf d u l).1 := by
  constructor
  · intro h
    by_contra hns
    have h0 : (bestOf d u l).1 = 0 :=
      le_antisymm (not_lt.mp hns) (scan_foldl_mono d u l.enum (0, none, none))
    have := scan_foldl_frozen d u l.enum (0, none, none) h0
    unfold bestOf at h
    rw [this] at h
    simp at h
  · intro h
    obtain ⟨q, _, _, hq3⟩ := scan_foldl_find d u l.enum (0, none, none) h
    unfold bestOf
    rw [hq3]
    rfl

/-- A `claimedStep` call only appends to the trace. -/
theorem claimedStep_split (inv : List LineItem) (t : ℚ) (u : Finset (Option ℕ))
    (acc : List (ℚ × Option ℕ)) (x : LineItem) :
    claimedStep inv t (u, acc) x =
      ((claimedStep inv t (u, []) x).1, acc ++ (claimedStep inv t (u, []) x).2) := by
  dsimp only [claimedStep]
  split <;> simp

/-- The claimed-trace fold decomposes over its accumulator. -/
theorem claimed_foldl_split (inv : List LineItem) (t : ℚ) :
    ∀ (items : List LineItem) (u : Finset (Option ℕ)) (acc : List (ℚ × Option ℕ)),
      items.foldl (claimedStep inv t) (u, acc) =
        ((items.foldl (claimedStep inv t) (u, [])).1,
          acc ++ (items.foldl (claimedStep inv t) (u, [])).2) := by
  intro items
  induction items with
  | nil => intro u acc; simp
  | cons x items ih =>
    intro u acc
    simp only [List.foldl_cons]
    rw [claimedStep_split inv t u acc x]
    rw [ih (claimedStep inv t (u, []) x).1 (acc ++ (claimedStep inv t (u, []) x).2)]
    rw [ih (claimedStep inv t (u, []) x).1 (claimedStep inv t (u, []) x).2]
    simp [List.append_assoc]

/-- A `poStep` call only appends to the row list. -/
theorem poStep_split (inv : List LineItem) (t : ℚ) (u : Finset (Option ℕ))
    (acc : List Row) (x : LineItem) :
    poStep inv t (u, acc) x =
      ((poStep inv t (u, []) x).1, acc ++ (poStep inv t (u, []) x).2) := by
  dsimp only [poStep]
  split <;> simp

/-- The row fold of `compare_structures` decomposes over its accumulator. -/
theorem po_foldl_split (inv : List LineItem) (t : ℚ) :
    ∀ (items : List LineItem) (u : Finset (Option ℕ)) (acc : List Row),
      items.foldl (poStep inv t) (u, acc) =
        ((items.foldl (poStep inv t) (u, [])).1,
          acc ++ (items.foldl (poStep inv t) (u, [])).2) := by
  intro items
  induction items with
  | nil => intro u acc; simp
  | cons x items ih =>
    intro u acc
    simp only [List.foldl_cons]
    rw [poStep_split inv t u acc x]
    rw [ih (poStep inv t (u, []) x).1 (acc ++ (poStep inv t (u, []) x).2)]
    rw [ih (poStep inv t (u, []) x).1 (poStep inv t (u, []) x).2]
    simp [List.append_assoc]

/-- The `inv_used` component evolves identically in the row fold of
`compare_structures` and in the claimed-trace fold. -/
theorem po_claimed_fst_eq (inv : List LineItem) (t : ℚ) :
    ∀ (items : List LineItem) (u : Finset (Option ℕ)) (acc1 : List Row)
      (acc2 : List (ℚ × Option ℕ)),
      (items.foldl (poStep inv t) (u, acc1)).1 =
        (items.foldl (claimedStep inv t) (u, acc2)).1 := by
  intro items
  induction items with
  | nil => intro u acc1 acc2; rfl
  | cons x items ih =>
    intro u acc1 acc2
    simp only [List.foldl_cons]
    have hfst : (poStep inv t (u, acc1) x).1 = (claimedStep inv t (u, acc2) x).1 := by
      dsimp only [poStep, claimedStep]
      by_cases h : (bestOf (getDesc x) u inv).1 ≥ t
      · simp [h]
      · simp [h]
    have h1 : poStep inv t (u, acc1) x =
        ((poStep inv t (u, acc1) x).1, (poStep inv t (u, acc1) x).2) := rfl
    have h2 : claimedStep inv t (u, acc2) x =
        ((claimedStep inv t (u, acc2) x).1, (claimedStep inv t (u, acc2) x).2) := rfl
    rw [h1, h2, hfst]
    exact ih _ _ _

/-- The claimed-set embedding is `some`. -/
theorem embSome_apply (n : ℕ) : embSome n = some n := rfl

/-- One PO-item step of the source's matching loop agrees with the spec-side
greedy step, for a positive threshold, through the `some` embedding of the
claimed set. -/
theorem claimed_spec_step_eq (inv : List LineItem) (t : ℚ) (ht : 0 < t)
    (u : Finset ℕ) (x : LineItem) :
    claimedStep inv t (Finset.map embSome u, []) x =
      ((specGreedyStep inv t (u, []) x).1.map embSome,
        (specGreedyStep inv t (u, []) x).2) := by
  have hmemiff : ∀ p : ℕ × LineItem,
      (decide ((some p.1) ∉ Finset.map embSome u)) = (decide (p.1 ∉ u)) := by
    intro p
    apply decide_eq_decide.mpr
    constructor
    · intro h hmem
      exact h (by rw [← embSome_apply p.1]; exact Finset.mem_map_of_mem _ hmem)
    · intro h hmem
      apply h
      rw [← embSome_apply p.1] at hmem
      exact (Finset.mem_map' _).mp hmem
  have hfilt : inv.enum.filter (fun p => decide ((some p.1) ∉ Finset.map embSome u)) =
      inv.enum.filter (fun p => decide (p.1 ∉ u)) :=
    List.filter_congr (fun p _ => hmemiff p)
  have hb : bestOf (getDesc x) (Finset.map embSome u) inv =
      inv.enum.foldl (scanStep (getDesc x) (Finset.map embSome u)) (0, none, none) := rfl
  have hscore : (bestOf (getDesc x) (Finset.map embSome u) inv).1 =
      ((inv.enum.filter (fun p => decide (p.1 ∉ u))).map
        (fun p => similar (getDesc x) (getDesc p.2))).foldl max 0 := by
    rw [hb, scan_foldl_fst_eq, hfilt]
  by_cases hacc : (bestOf (getDesc x) (Finset.map embSome u) inv).1 ≥ t
  · have hpos : (0 : ℚ) <
        (inv.enum.foldl (scanStep (getDesc x) (Finset.map embSome u)) (0, none, none)).1 := by
      rw [← hb]
      exact lt_of_lt_of_le ht hacc
    obtain ⟨q, hq1, hq2, hq3⟩ :=
      scan_foldl_find (getDesc x) (Finset.map embSome u) inv.enum (0, none, none) hpos
    rw [hfilt] at hq1
    rw [← hb] at hq1 hq2 hq3
    rw [hscore] at hq1
    have hacc' : ((inv.enum.filter (fun p => decide (p.1 ∉ u))).map
        (fun p => similar (getDesc x) (getDesc p.2))).foldl max 0 ≥ t := by
      rw [← hscore]
      exact hacc
    dsimp only [claimedStep, specGreedyStep]
    rw [if_pos hacc]
    simp only [hq1]
    rw [if_pos hacc']
    rw [hq3, hscore]
    rw [Finset.map_insert, embSome_apply]
  · have hacc' : ¬ ((inv.enum.filter (fun p => decide (p.1 ∉ u))).map
        (fun p => similar (getDesc x) (getDesc p.2))).foldl max 0 ≥ t := by
      rw [← hscore]
      exact hacc
    dsimp only [claimedStep, specGreedyStep]
    rw [if_neg hacc]
    rcases hfind : (inv.enum.filter (fun p => decide (p.1 ∉ u))).find?
        (fun p => decide (similar (getDesc x) (getDesc p.2) =
          ((inv.enum.filter (fun p => decide (p.1 ∉ u))).map
            (fun p => similar (getDesc x) (getDesc p.2))).foldl max 0)) with _ | q
    · simp only [hfind]
      rw [hscore]
    · simp only [hfind]
      rw [if_neg hacc']
      rw [hscore]

/-- A `specGreedyStep` call only appends to the trace. -/
theorem specGreedyStep_split (inv : List LineItem) (t : ℚ) (u : Finset ℕ)
    (acc : List (ℚ × Option ℕ)) (x : LineItem) :
    specGreedyStep inv t (u, acc) x =
      ((specGreedyStep inv t (u, []) x).1, acc ++ (specGreedyStep inv t (u, []) x).2) := by
  dsimp only [specGreedyStep]
  rcases hfind : (inv.enum.filter (fun p => decide (p.1 ∉ u))).find?
      (fun p => decide (similar (getDesc x) (getDesc p.2) =
        ((inv.enum.filter (fun p => decide (p.1 ∉ u))).map
          (fun p => similar (getDesc x) (getDesc p.2))).foldl max 0)) with _ | q
  · rw [hfind]
    rfl
  · rw [hfind]
    by_cases hc : ((inv.enum.filter (fun p => decide (p.1 ∉ u))).map
        (fun p => similar (getDesc x) (getDesc p.2))).foldl max 0 ≥ t
    · simp only [if_pos hc]
      rfl
    · simp only [if_neg hc]
      rfl

/-- The spec-side greedy fold decomposes over its accumulator. -/
theorem spec_foldl_split (inv : List LineItem) (t : ℚ) :
    ∀ (items : List LineItem) (u : Finset ℕ) (acc : List (ℚ × Option ℕ)),
      items.foldl (specGreedyStep inv t) (u, acc) =
        ((items.foldl (specGreedyStep inv t) (u, [])).1,
          acc ++ (items.foldl (specGreedyStep inv t) (u, [])).2) := by
  intro items
  induction items with
  | nil => intro u acc; simp
  | cons x items ih =>
    intro u acc
    simp only [List.foldl_cons]
    rw [specGreedyStep_split inv t u acc x]
    rw [ih (specGreedyStep inv t (u, []) x).1 (acc ++ (specGreedyStep inv t (u, []) x).2)]
    rw [ih (specGreedyStep inv t (u, []) x).1 (specGreedyStep inv t (u, []) x).2]
    simp [List.append_assoc]

/-- The matching loop of the source and the spec-side greedy agree, for a
positive threshold: identical traces and mirrored claimed sets. -/
theorem claimed_spec_foldl_eq (inv : List LineItem) (t : ℚ) (ht : 0 < t) :
    ∀ (items : List LineItem) (u : Finset ℕ),
      (items.foldl (claimedStep inv t) (Finset.map embSome u, [])).2 =
          (items.foldl (specGreedyStep inv t) (u, [])).2 ∧
        (items.foldl (claimedStep inv t) (Finset.map embSome u, [])).1 =
          (items.foldl (specGreedyStep inv t) (u, [])).1.map embSome := by
  intro items
  induction items with
  | nil => intro u; exact ⟨rfl, rfl⟩
  | cons x items ih =>
    intro u
    simp only [List.foldl_cons]
    rw [claimed_spec_step_eq inv t ht u x]
    rw [claimed_foldl_split inv t items
      ((specGreedyStep inv t (u, []) x).1.map embSome) ((specGreedyStep inv t (u, []) x).2)]
    rw [specGreedyStep_split inv t u [] x]
    rw [spec_foldl_split inv t items (specGreedyStep inv t (u, []) x).1
      ([] ++ (specGreedyStep inv t (u, []) x).2)]
    obtain ⟨h1, h2⟩ := ih (specGreedyStep inv t (u, []) x).1
    constructor
    · simp only [h1, List.nil_append]
    · simp only [h2]

/-- Counting invariant of the matching loop: at every point, an invoice index
is in `inv_used` exactly when exactly one trace entry claimed it. -/
theorem claimed_count_inv (inv : List LineItem) (t : ℚ) :
    ∀ (items : List LineItem) (u : Finset (Option ℕ)) (acc : List (ℚ × Option ℕ)),
      (∀ j : ℕ, acc.countP (fun e => decide (e.2 = some j)) =
        if (some j) ∈ u then 1 else 0) →
      ∀ j : ℕ,
        ((items.foldl (claimedStep inv t) (u, acc)).2).countP
            (fun e => decide (e.2 = some j)) =
          if (some j) ∈ (items.foldl (claimedStep inv t) (u, acc)).1 then 1 else 0 := by
  intro items
  induction items with
  | nil => intro u acc h j; exact h j
  | cons x items ih =>
    intro u acc h j
    simp only [List.foldl_cons]
    have hstep : ∀ j' : ℕ,
        ((claimedStep inv t (u, acc) x).2).countP (fun e => decide (e.2 = some j')) =
          if (some j') ∈ (claimedStep inv t (u, acc) x).1 then 1 else 0 := by
      intro j'
      dsimp only [claimedStep]
      by_cases hacc : (bestOf (getDesc x) u inv).1 ≥ t
      · rw [if_pos hacc]
        dsimp only
        rw [List.countP_append, h j']
        rcases hidx : (bestOf (getDesc x) u inv).2.2 with _ | j0
        · simp only [hidx, List.countP_cons, List.countP_nil]
          simp [Finset.mem_insert]
        · have hnotmem : (some j0) ∉ u := by
            have := scan_foldl_notmem (getDesc x) u inv.enum (0, none, none) j0 hidx
            rcases this with h' | h'
            · simp at h'
            · exact h'
          by_cases hj : j' = j0
          · subst hj
            simp only [hidx, List.countP_cons, List.countP_nil]
            rw [if_neg hnotmem]
            simp [Finset.mem_insert]
          · simp only [hidx, List.countP_cons, List.countP_nil]
            simp [Finset.mem_insert, hj, Ne.symm hj]
      · rw [if_neg hacc]
        dsimp only
        rw [List.countP_append, h j']
        simp
    have h2 := ih (claimedStep inv t (u, acc) x).1 (claimedStep inv t (u, acc) x).2 hstep j
    exact h2

/-- Exactly one filtered-enumeration entry has a given in-range index that is
not claimed; a claimed or out-of-range index has none. -/
theorem enumFrom_filter_countP (u : Finset (Option ℕ)) (j : ℕ) :
    ∀ (l : List LineItem) (n : ℕ),
      ((List.enumFrom n l).filter (fun p => decide ((some p.1) ∉ u))).countP
          (fun p => decide (p.1 = j)) =
        if n ≤ j ∧ j < n + l.length ∧ (some j) ∉ u then 1 else 0 := by
  intro l
  induction l with
  | nil =>
    intro n
    simp only [List.enumFrom_nil, List.filter_nil, List.countP_nil, List.length_nil]
    have hc : ¬ (n ≤ j ∧ j < n + 0 ∧ (some j) ∉ u) := by
      intro hcon
      exact absurd hcon.2.1 (by omega)
    rw [if_neg hc]
  | cons x l ih =>
    intro n
    rw [List.enumFrom_cons, List.filter_cons]
    by_cases hn : (some n) ∉ u
    · rw [if_pos (by simpa using hn)]
      rw [List.countP_cons, ih (n + 1)]
      by_cases hj : n = j
      · subst hj
        have hc1 : ¬ (n + 1 ≤ n ∧ n < n + 1 + l.length ∧ (some n) ∉ u) := by
          intro hcon
          exact absurd hcon.1 (by omega)
        have hc2 : n ≤ n ∧ n < n + (x :: l).length ∧ (some n) ∉ u := by
          refine ⟨le_refl n, ?_, hn⟩
          simp only [List.length_cons]
          omega
        rw [if_neg hc1, if_pos hc2]
        simp
      · have hiff : (n + 1 ≤ j ∧ j < n + 1 + l.length ∧ (some j) ∉ u) ↔
            (n ≤ j ∧ j < n + (x :: l).length ∧ (some j) ∉ u) := by
          simp only [List.length_cons]
          constructor
          · rintro ⟨h1, h2, h3⟩
            exact ⟨by omega, by omega, h3⟩
          · rintro ⟨h1, h2, h3⟩
            refine ⟨by omega, by omega, h3⟩
        rw [if_congr hiff rfl rfl]
        have : (decide ((n, x).1 = j)) = false := by simp [hj]
        simp [this]
    · rw [if_neg (by simpa using hn)]
      rw [ih (n + 1)]
      have hmem : (some n) ∈ u := not_not.mp hn
      by_cases hj : n = j
      · subst hj
        have hc1 : ¬ (n + 1 ≤ n ∧ n < n + 1 + l.length ∧ (some n) ∉ u) := by
          intro hcon
          exact absurd hcon.1 (by omega)
        have hc2 : ¬ (n ≤ n ∧ n < n + (x :: l).length ∧ (some n) ∉ u) := by
          intro hcon
          exact hcon.2.2 hmem
        rw [if_neg hc1, if_neg hc2]
      · have hiff : (n + 1 ≤ j ∧ j < n + 1 + l.length ∧ (some j) ∉ u) ↔
            (n ≤ j ∧ j < n + (x :: l).length ∧ (some j) ∉ u) := by
          simp only [List.length_cons]
          constructor
          · rintro ⟨h1, h2, h3⟩
            exact ⟨by omega, by omega, h3⟩
          · rintro ⟨h1, h2, h3⟩
            refine ⟨by omega, by omega, h3⟩
        rw [if_congr hiff rfl rfl]

/-- The PO-driven rows carry exactly the PO descriptions, in PO order. -/
theorem po_rows_map (inv : List LineItem) (t : ℚ) :
    ∀ (items : List LineItem) (u : Finset (Option ℕ)) (acc : List Row),
      ((items.foldl (poStep inv t) (u, acc)).2).map Row.po_value =
        acc.map Row.po_value ++ items.map getDesc := by
  intro items
  induction items with
  | nil => intro u acc; simp
  | cons x items ih =>
    intro u acc
    simp only [List.foldl_cons]
    have h2 : ((items.foldl (poStep inv t) (poStep inv t (u, acc) x)).2).map Row.po_value =
        ((poStep inv t (u, acc) x).2).map Row.po_value ++ items.map getDesc :=
      ih (poStep inv t (u, acc) x).1 (poStep inv t (u, acc) x).2
    rw [h2]
    have h3 : ((poStep inv t (u, acc) x).2).map Row.po_value =
        acc.map Row.po_value ++ [getDesc x] := by
      dsimp only [poStep]
      split <;> simp [poRow]
    rw [h3]
    simp

/-- The first trace entry: the first PO item scans all invoice items with an
empty claimed set; its entry is the best score together with the claimed
index when the score reaches the threshold. -/
theorem claimedSeq_cons_head (inv_items : List LineItem) (t : ℚ) (x : LineItem)
    (rest : List LineItem) :
    (claimedSeq (x :: rest) inv_items t).head? =
      some ((bestOf (getDesc x) ∅ inv_items).1,
        if (bestOf (getDesc x) ∅ inv_items).1 ≥ t then
          (bestOf (getDesc x) ∅ inv_items).2.2
        else none) := by
  unfold claimedSeq
  simp only [List.foldl_cons]
  have hdecomp : (rest.foldl (claimedStep inv_items t)
        (claimedStep inv_items t (∅, []) x)).2 =
      (claimedStep inv_items t (∅, []) x).2 ++
        (rest.foldl (claimedStep inv_items t)
          ((claimedStep inv_items t (∅, []) x).1, [])).2 := by
    have h := claimed_foldl_split inv_items t rest
      (claimedStep inv_items t (∅, []) x).1 (claimedStep inv_items t (∅, []) x).2
    exact congrArg Prod.snd h
  rw [hdecomp]
  dsimp only [claimedStep]
  by_cases hacc : (bestOf (getDesc x) ∅ inv_items).1 ≥ t
  · simp only [if_pos hacc]
    rfl
  · simp only [if_neg hacc]
    rfl

/-- Dropping the indices of an enumeration before mapping a value function. -/
theorem enumFrom_map_snd {β : Type _} (f : LineItem → β) :
    ∀ (l : List LineItem) (n : ℕ),
      (List.enumFrom n l).map (fun p => f p.2) = l.map f := by
  intro l
  induction l with
  | nil => intro n; rfl
  | cons x l ih =>
    intro n
    rw [List.enumFrom_cons, List.map_cons, List.map_cons, ih (n + 1)]

/-- With no claimed index, the best score is the maximum description
similarity over all invoice items (and `0`). -/
theorem bestOf_empty_fst (d : String) (l : List LineItem) :
    (bestOf d ∅ l).1 =
      (l.map (fun it => similar d (getDesc it))).foldl max 0 := by
  unfold bestOf
  rw [scan_foldl_fst_eq]
  have hfil : l.enum.filter (fun p => decide ((some p.1) ∉ (∅ : Finset (Option ℕ)))) =
      l.enum := by
    apply List.filter_eq_self.mpr
    intro p _
    simp
  rw [hfil]
  have hmap : l.enum.map (fun p => similar d (getDesc p.2)) =
      l.map (fun it => similar d (getDesc it)) :=
    enumFrom_map_snd (fun it => similar d (getDesc it)) l 0
  rw [hmap]

/-- The status of an item row is `"Match"` exactly when the three string-form
comparisons all succeed. -/
theorem item_status_eq_match_iff (a b c d e f : String) :
    item_status a b c d e f = "Match" ↔ (a = b ∧ c = d ∧ e = f) := by
  unfold item_status
  split
  · rename_i h
    constructor
    · intro hcon
      exact absurd hcon (by decide)
    · intro hc
      rcases h with h | h | h
      · exact absurd hc.1 h
      · exact absurd hc.2.1 h
      · exact absurd hc.2.2 h
  · rename_i h
    push_neg at h
    exact ⟨fun _ => h, fun _ => rfl⟩

/-- Claim C1: for every pair of structured records and every threshold in the
configurable range `[0.50, 0.95]`, the item-matching routine processes PO
items in their original order and, for each, scores every not-yet-claimed
invoice item with `similar` (a ratio in `[0, 1]` over case-folded, trimmed
descriptions), selects the unclaimed item with the highest score breaking
ties by first-encountered index, and accepts and claims it iff the best
score reaches the threshold: its decision trace equals the spec-side greedy
`specGreedy`, and the `inv_used` set of the report fold agrees. -/
theorem C1_greedy_first_argmax (po inv : StructuredDoc) (t : ℚ)
    (h1 : mkRat 1 2 ≤ t) (h2 : t ≤ mkRat 19 20) :
    claimedSeq po.items inv.items t = specGreedy po.items inv.items t ∧
      usedAfter po.items inv.items t =
        (po.items.foldl (poStep inv.items t) (∅, [])).1 ∧
      ∀ a b : String, 0 ≤ similar a b ∧ similar a b ≤ 1 := by
  have ht : (0 : ℚ) < t := lt_of_lt_of_le (show (0 : ℚ) < mkRat 1 2 by decide) h1
  refine ⟨?_, ?_, fun a b => similar_mem_unit a b⟩
  · unfold claimedSeq specGreedy
    have hemb : (∅ : Finset (Option ℕ)) = Finset.map embSome (∅ : Finset ℕ) := by simp
    rw [hemb]
    exact (claimed_spec_foldl_eq inv.items t ht po.items ∅).1
  · unfold usedAfter
    exact (po_claimed_fst_eq inv.items t po.items ∅ [] []).symm

/-- Witness for C1 at a concrete pair of records and the default threshold. -/
theorem C1_greedy_first_argmax_witness :
    (mkRat 1 2 ≤ mkRat 7 10) ∧
      claimedSeq po4.items inv4.items (mkRat 7 10) =
        specGreedy po4.items inv4.items (mkRat 7 10) :=
  ⟨by decide, (C1_greedy_first_argmax po4 inv4 (mkRat 7 10) (by decide) (by decide)).1⟩

/-- Claim C2: a header field is reported `"Match"` iff both values' string
forms are non-empty after trimming and exactly equal after trimming; the four
checks use `headerStatus` on the four fixed fields, and grand totals
`"1200.00"` versus `"1200"` are a Mismatch. -/
theorem C2_header_match_iff (po inv : StructuredDoc) (t : ℚ) (a b : String) :
    (compare_structures po inv t).1 = header_checks po inv ∧
      (headerStatus a b = "Match" ↔
        (pyStripS a ≠ "" ∧ pyStripS b ≠ "" ∧ pyStripS a = pyStripS b)) ∧
      (header_checks po inv).map HeaderCheck.status =
        [headerStatus (po.number.getD "") (inv.number.getD ""),
         headerStatus (po.vendor.getD "") (inv.vendor.getD ""),
         headerStatus (po.date.getD "") (inv.date.getD ""),
         headerStatus (po.grand_total.getD "") (inv.grand_total.getD "")] ∧
      headerStatus "1200.00" "1200" = "Mismatch" := by
  refine ⟨rfl, ?_, rfl, by decide⟩
  unfold headerStatus
  split
  · rename_i h
    exact ⟨fun _ => h, fun _ => rfl⟩
  · rename_i h
    constructor
    · intro hcon
      exact absurd hcon (by decide)
    · intro hc
      exact absurd hc h

/-- Claim C3: for a matched PO/Invoice item pair, the row status is
`"Match"` iff the qty, unit-price and total string forms are pairwise equal
(literal string equality, no numeric normalization). -/
theorem C3_matched_row_status (inv_items : List LineItem) (t : ℚ)
    (used : Finset (Option ℕ)) (rows : List Row) (po_it it : LineItem) (j : ℕ)
    (s : ℚ) (r : Row)
    (hbest : bestOf (getDesc po_it) used inv_items = (s, some it, some j))
    (hacc : s ≥ t)
    (hrow : (poStep inv_items t (used, rows) po_it).2 = rows ++ [r]) :
    r.status = "Match" ↔
      (po_it.qty.getD "" = it.qty.getD "" ∧
        po_it.unit_price.getD "" = it.unit_price.getD "" ∧
        po_it.total.getD "" = it.total.getD "") := by
  have hstep : (poStep inv_items t (used, rows) po_it).2 =
      rows ++ [poRow po_it (some it) s] := by
    dsimp only [poStep]
    rw [hbest]
    dsimp only
    rw [if_pos hacc]
  rw [hstep] at hrow
  have hr : r = poRow po_it (some it) s := by
    simpa using (List.append_cancel_left hrow).symm
  subst hr
  exact item_status_eq_match_iff (po_it.qty.getD "") (it.qty.getD "")
    (po_it.unit_price.getD "") (it.unit_price.getD "")
    (po_it.total.getD "") (it.total.getD "")

/-- Witness for C3: a matched pair with qty `"5.00"` versus `"5.0"`; by the
theorem the row is a Match iff the string forms agree, which they do not. -/
theorem C3_matched_row_status_witness :
    (poRow poIt3 (some invIt3) 1).status = "Match" ↔
      (poIt3.qty.getD "" = invIt3.qty.getD "" ∧
        poIt3.unit_price.getD "" = invIt3.unit_price.getD "" ∧
        poIt3.total.getD "" = invIt3.total.getD "") :=
  C3_matched_row_status [invIt3] (mkRat 7 10) ∅ [] poIt3 invIt3 0 1
    (poRow poIt3 (some invIt3) 1) (by decide) (by decide) (by decide)

/-- Counterexample to C4 as stated: the unmatched PO row of `po4`/`inv4` at
the default threshold carries the rounded best score `1/2`, not `0.0`. -/
theorem C4_counterexample :
    (bestOf (getDesc poIt4) ∅ inv4.items).1 = mkRat 1 2 ∧
      (mkRat 1 2 < mkRat 7 10) ∧
      ((compare_structures po4 inv4 (mkRat 7 10)).2.head?).map
          (fun r => (r.inv_value, r.status, r.match_score)) =
        some ("", "Mismatch", mkRat 1 2) ∧
      (mkRat 1 2 ≠ 0) := by
  refine ⟨by decide, by decide, by decide, by decide⟩

/-- Claim C4 (amended): a PO item whose best score is below the threshold is
emitted with all invoice-side fields empty and claims no invoice item, but
its similarity score is `round(best_score, 2)` — not reset to `0.0` — and its
status is `"Mismatch"` unless the PO item's qty, unit-price and total string
forms are all empty (in which case it is `"Match"`). -/
theorem C4_below_threshold_row (inv_items : List LineItem) (t : ℚ)
    (used : Finset (Option ℕ)) (rows : List Row) (po_it : LineItem)
    (hlt : (bestOf (getDesc po_it) used inv_items).1 < t) :
    poStep inv_items t (used, rows) po_it =
        (used, rows ++ [poRow po_it none (bestOf (getDesc po_it) used inv_items).1]) ∧
      (poRow po_it none (bestOf (getDesc po_it) used inv_items).1).inv_value = "" ∧
      (poRow po_it none (bestOf (getDesc po_it) used inv_items).1).inv_qty = "" ∧
      (poRow po_it none (bestOf (getDesc po_it) used inv_items).1).inv_price = "" ∧
      (poRow po_it none (bestOf (getDesc po_it) used inv_items).1).inv_total = "" ∧
      (poRow po_it none (bestOf (getDesc po_it) used inv_items).1).match_score =
        pyRound2 (bestOf (getDesc po_it) used inv_items).1 ∧
      ((poRow po_it none (bestOf (getDesc po_it) used inv_items).1).status = "Match" ↔
        (po_it.qty.getD "" = "" ∧ po_it.unit_price.getD "" = "" ∧
          po_it.total.getD "" = "")) := by
  refine ⟨?_, rfl, rfl, rfl, rfl, rfl, ?_⟩
  · dsimp only [poStep]
    rw [if_neg (not_le.mpr hlt)]
  · exact item_status_eq_match_iff (po_it.qty.getD "") "" (po_it.unit_price.getD "") ""
      (po_it.total.getD "") ""

/-- Witness for the amended C4 at the concrete below-threshold record. -/
theorem C4_below_threshold_row_witness :
    ((bestOf (getDesc poIt4) ∅ inv4.items).1 < mkRat 7 10) ∧
      poStep inv4.items (mkRat 7 10) (∅, []) poIt4 =
        (∅, [] ++ [poRow poIt4 none (bestOf (getDesc poIt4) ∅ inv4.items).1]) :=
  ⟨by decide, (C4_below_threshold_row inv4.items (mkRat 7 10) ∅ [] poIt4 (by decide)).1⟩

/-- Claim C5: the item rows of the report are exactly the PO-driven rows in
PO item order (one per PO item, carrying its description) followed by the
never-claimed invoice items in their original order, each rendered by
`unmatchedRowOf` with status `"Mismatch"` and score `0.0`. -/
theorem C5_row_layout (po inv : StructuredDoc) (t : ℚ) :
    (compare_structures po inv t).2 =
        (po.items.foldl (poStep inv.items t) (∅, [])).2 ++
          (inv.items.enum.filter
            (fun p => decide ((some p.1) ∉ usedAfter po.items inv.items t))).map
            (fun p => unmatchedRowOf p.2) ∧
      ((po.items.foldl (poStep inv.items t) (∅, [])).2).map Row.po_value =
        po.items.map getDesc ∧
      ∀ it : LineItem, (unmatchedRowOf it).field = "Item (Unmatched Invoice)" ∧
        (unmatchedRowOf it).status = "Mismatch" ∧ (unmatchedRowOf it).match_score = 0 := by
  refine ⟨?_, ?_, fun it => ⟨rfl, rfl, rfl⟩⟩
  · dsimp only [compare_structures]
    have hfst : (po.items.foldl (poStep inv.items t) (∅, [])).1 =
        usedAfter po.items inv.items t :=
      po_claimed_fst_eq inv.items t po.items ∅ [] []
    rw [hfst]
  · have h := po_rows_map inv.items t po.items ∅ []
    simpa using h

/-- Counterexample to C6 as stated: on `po6`/`inv6`, the second PO item is
unmatched at threshold `0.5` (entry `(0, none)`) but matched at the higher
threshold `0.7` (entry `(1, some 0)`), because raising the threshold frees
the invoice item that the first PO item had claimed. -/
theorem C6_counterexample :
    (mkRat 1 2 ≤ mkRat 7 10) ∧
      (claimedSeq po6.items inv6.items (mkRat 1 2)).get? 1 = some (0, none) ∧
      (claimedSeq po6.items inv6.items (mkRat 7 10)).get? 1 = some (1, some 0) := by
  refine ⟨by decide, by decide, by decide⟩

/-- Claim C6 (amended): threshold monotonicity holds for the first PO item —
if it is matched at the higher threshold it is matched at the lower one —
but for later PO items raising the threshold can free previously claimed
invoice items and turn an unmatched PO item into a matched one. -/
theorem C6_first_item_monotone (po_items inv_items : List LineItem) (t1 t2 : ℚ)
    (p1 p2 : ℚ × Option ℕ) (hle : t1 ≤ t2)
    (h1 : (claimedSeq po_items inv_items t1).head? = some p1)
    (h2 : (claimedSeq po_items inv_items t2).head? = some p2)
    (hm : p2.2.isSome = true) : p1.2.isSome = true := by
  cases po_items with
  | nil => simp [claimedSeq] at h1
  | cons x rest =>
    rw [claimedSeq_cons_head inv_items t1 x rest] at h1
    rw [claimedSeq_cons_head inv_items t2 x rest] at h2
    rw [Option.some_inj] at h1 h2
    subst h1
    subst h2
    by_cases hacc2 : (bestOf (getDesc x) ∅ inv_items).1 ≥ t2
    · have hacc1 : (bestOf (getDesc x) ∅ inv_items).1 ≥ t1 := le_trans hle hacc2
      simp only [if_pos hacc1]
      simp only [if_pos hacc2] at hm
      exact hm
    · simp only [if_neg hacc2] at hm
      simp at hm

/-- Witness for the amended C6 on the concrete records, with thresholds
`0.5 ≤ 0.55` and a first item matched at both. -/
theorem C6_first_item_monotone_witness :
    ((mkRat 3 5, (some 0 : Option ℕ)).2.isSome = true) :=
  C6_first_item_monotone po6.items inv6.items (mkRat 1 2) (mkRat 11 20)
    (mkRat 3 5, (some 0 : Option ℕ)) (mkRat 3 5, (some 0 : Option ℕ))
    (by decide) (by decide) (by decide) (by decide)

/-- Counterexample to C7 as stated: permuting the invoice list changes
whether the second PO item finds a match above the threshold (entry
`(2/3, none)` originally, `(1, some 1)` after the swap), because the
tie-break for the first PO item claims a different item. -/
theorem C7_counterexample :
    ([invX, invY].Perm [invY, invX]) ∧
      (claimedSeq po7.items [invX, invY] (mkRat 7 10)).get? 1 = some (mkRat 2 3, none) ∧
      (claimedSeq po7.items [invY, invX] (mkRat 7 10)).get? 1 = some (1, some 1) := by
  refine ⟨List.Perm.swap invY invX [], by decide, by decide⟩

/-- Claim C7 (amended): invoice-side permutation invariance holds for the
first PO item — whether it finds a match above the threshold is unchanged by
permuting the invoice items — but for later PO items a permutation can
change which equal-top-score item an earlier PO item claims and hence
whether a later PO item can be matched at all. -/
theorem C7_first_item_perm (po_items inv1 inv2 : List LineItem) (t : ℚ)
    (p1 p2 : ℚ × Option ℕ) (hperm : inv1.Perm inv2)
    (h1 : (claimedSeq po_items inv1 t).head? = some p1)
    (h2 : (claimedSeq po_items inv2 t).head? = some p2) :
    p1.2.isSome = p2.2.isSome := by
  cases po_items with
  | nil => simp [claimedSeq] at h1
  | cons x rest =>
    rw [claimedSeq_cons_head inv1 t x rest] at h1
    rw [claimedSeq_cons_head inv2 t x rest] at h2
    rw [Option.some_inj] at h1 h2
    subst h1
    subst h2
    have hscore : (bestOf (getDesc x) ∅ inv1).1 = (bestOf (getDesc x) ∅ inv2).1 := by
      rw [bestOf_empty_fst, bestOf_empty_fst]
      exact (hperm.map (fun it => similar (getDesc x) (getDesc it))).foldl_eq 0
    by_cases hacc : (bestOf (getDesc x) ∅ inv1).1 ≥ t
    · have hacc2 : (bestOf (getDesc x) ∅ inv2).1 ≥ t := by
        rw [← hscore]
        exact hacc
      simp only [if_pos hacc, if_pos hacc2]
      by_cases hpos : 0 < (bestOf (getDesc x) ∅ inv1).1
      · have hpos2 : 0 < (bestOf (getDesc x) ∅ inv2).1 := by
          rw [← hscore]
          exact hpos
        rw [(bestOf_idx_isSome (getDesc x) ∅ inv1).mpr hpos,
          (bestOf_idx_isSome (getDesc x) ∅ inv2).mpr hpos2]
      · have hpos2 : ¬ 0 < (bestOf (getDesc x) ∅ inv2).1 := by
          rw [← hscore]
          exact hpos
        have e1 : ((bestOf (getDesc x) ∅ inv1).2.2).isSome = false :=
          Bool.eq_false_iff.mpr (fun hh => hpos ((bestOf_idx_isSome (getDesc x) ∅ inv1).mp hh))
        have e2 : ((bestOf (getDesc x) ∅ inv2).2.2).isSome = false :=
          Bool.eq_false_iff.mpr (fun hh => hpos2 ((bestOf_idx_isSome (getDesc x) ∅ inv2).mp hh))
        rw [e1, e2]
    · have hacc2 : ¬ (bestOf (getDesc x) ∅ inv2).1 ≥ t := by
        rw [← hscore]
        exact hacc
      simp only [if_neg hacc, if_neg hacc2]

/-- Witness for the amended C7 on the concrete permuted invoice lists. -/
theorem C7_first_item_perm_witness :
    ((mkRat 4 5, (some 0 : Option ℕ)).2.isSome =
      (mkRat 4 5, (some 0 : Option ℕ)).2.isSome) :=
  C7_first_item_perm po7.items [invX, invY] [invY, invX] (mkRat 7 10)
    (mkRat 4 5, (some 0 : Option ℕ)) (mkRat 4 5, (some 0 : Option ℕ))
    (List.Perm.swap invY invX []) (by decide) (by decide)

/-- Claim C8: the Comparator is deterministic — two runs on equal structured
records and equal thresholds produce identical reports (the embedding keeps
no state between runs). -/
theorem C8_deterministic (po1 po2 inv1 inv2 : StructuredDoc) (t1 t2 : ℚ)
    (hp : po1 = po2) (hi : inv1 = inv2) (ht : t1 = t2) :
    compare_structures po1 inv1 t1 = compare_structures po2 inv2 t2 := by
  subst hp
  subst hi
  subst ht
  rfl

/-- Witness for C8 at a concrete pair of records. -/
theorem C8_deterministic_witness :
    compare_structures po4 inv4 (7 / 10) = compare_structures po4 inv4 (7 / 10) :=
  C8_deterministic po4 po4 inv4 inv4 (7 / 10) (7 / 10) rfl rfl rfl

/-- Claim C9: with no API credential configured (a falsy `GEMINI_KEY`), the
structure-extraction call returns the configuration error with no structured
record and issues no network request. -/
theorem C9_no_key_short_circuit (gk : Option String)
    (gen : String → Except String String) (jl : String → Option StructuredDoc)
    (text dt : String) (hk : truthyStr gk = false) :
    call_gemini_for_structure gk gen jl text dt =
      ((none, some "No API key configured."), []) := by
  unfold call_gemini_for_structure
  rw [if_pos hk]

/-- Witness for C9 with an absent key and concrete oracles. -/
theorem C9_no_key_short_circuit_witness :
    call_gemini_for_structure none (fun _ => Except.ok "")
        (fun _ => none) "some text" "Purchase Order" =
      ((none, some "No API key configured."), []) :=
  C9_no_key_short_circuit none (fun _ => Except.ok "") (fun _ => none)
    "some text" "Purchase Order" rfl

/-- Claim C10: every invoice index is claimed by at most one PO item and
appears exactly once across the item rows — either claimed by exactly one
trace entry, or listed exactly once among the unmatched invoice rows. -/
theorem C10_each_invoice_item_once (po inv : StructuredDoc) (t : ℚ) (j : ℕ)
    (hj : j < inv.items.length) :
    (claimedSeq po.items inv.items t).countP (fun e => decide (e.2 = some j)) +
        ((inv.items.enum.filter
          (fun p => decide ((some p.1) ∉ usedAfter po.items inv.items t))).countP
          (fun p => decide (p.1 = j))) = 1 := by
  have h1 : (claimedSeq po.items inv.items t).countP (fun e => decide (e.2 = some j)) =
      if (some j) ∈ usedAfter po.items inv.items t then 1 else 0 :=
    claimed_count_inv inv.items t po.items ∅ [] (fun j' => by simp) j
  have h2 : ((inv.items.enum.filter
        (fun p => decide ((some p.1) ∉ usedAfter po.items inv.items t))).countP
        (fun p => decide (p.1 = j))) =
      if 0 ≤ j ∧ j < 0 + inv.items.length ∧ (some j) ∉ usedAfter po.items inv.items t
      then 1 else 0 :=
    enumFrom_filter_countP (usedAfter po.items inv.items t) j inv.items 0
  rw [h1, h2]
  by_cases hmem : (some j) ∈ usedAfter po.items inv.items t
  · rw [if_pos hmem, if_neg (fun hcon => hcon.2.2 hmem)]
  · rw [if_neg hmem, if_pos ⟨Nat.zero_le j, by omega, hmem⟩]

/-- Witness for C10: on the concrete records the single invoice item is
unmatched, appearing exactly once (as an unmatched-invoice row). -/
theorem C10_each_invoice_item_once_witness :
    ((0 : ℕ) < inv4.items.length) ∧
      (claimedSeq po4.items inv4.items (mkRat 7 10)).countP
          (fun e => decide (e.2 = some 0)) +
        ((inv4.items.enum.filter
          (fun p => decide ((some p.1) ∉ usedAfter po4.items inv4.items (mkRat 7 10)))).countP
          (fun p => decide (p.1 = 0))) = 1 :=
  ⟨by decide, C10_each_invoice_item_once po4 inv4 (mkRat 7 10) 0 (by decide)⟩
